import Mathlib

/-!
Verification of the Ham interpreter core (lexer, stack, evaluator) against its
specification.  All definitions below are shallow embeddings of the Rust
sources in `ham_core/src` (`lib.rs`, `stack.rs`, `runtime.rs`,
`ast_types.rs`); machine integers are modelled as `Nat`, `HashMap` as an
association list with insert-or-replace semantics, panics as a dedicated
`crash` outcome, and general recursion through explicit fuel.
-/

namespace Ham

/-- The closed enumeration of token / AST operation kinds (`utils::Ops`). -/
inductive Ops where
  | Reference | VarDef | LeftAssign | Expression | FnCall
  | OpenParent | CloseParent | Boolean | Number | String
  | VarAssign | FnDef | OpenBlock | CloseBlock | IfConditional
  | ResExpression | EqualCondition | Return | PropAccess | CommaDelimiter
  | WhileDef | NotEqualCondition | Pointer | Import | Module
  | FromModule | Break | Invalid
  deriving DecidableEq, Repr

/-- Diagnostic codes of `utils::errors::CODES`. -/
inductive ErrCode where
  | FunctionNotFound | VariableNotFound | ReturnedValueNotUsed
  | BrokenPointer | ModuleNotFound | UnexpectedKeyword
  deriving DecidableEq, Repr

/-- A lexer token (`types::Token`): kind, raw text, 1-based line number. -/
structure Token where
  ast_type : Ops
  value : String
  line : Nat
  deriving DecidableEq, Repr

/- ### Lexer (`lib.rs::get_lines` / `transform_into_tokens`) -/

/-- Characters of the regex class `[\s+,.:]` used by `get_lines` (ASCII
whitespace portion of `\s`; the line splitter has already removed `\n`). -/
def isClass1 (c : Char) : Bool :=
  c = ' ' || c = '\t' || c = '\r' || c = '\x0b' || c = '\x0c' ||
  c = '+' || c = ',' || c = '.' || c = ':'

/-- Split a source string into its physical lines (Rust `code.split('\n')`). -/
def splitLinesCh (cs : List Char) : List (List Char) :=
  match cs with
  | [] => [[]]
  | c :: rest =>
    if c = '\n' then [] :: splitLinesCh rest
    else
      match splitLinesCh rest with
      | [] => [[c]]
      | l :: ls => (c :: l) :: ls

/-- Does the line start with `//`?  (Rust `line.starts_with("//")`, which only
looks at column 0.) -/
def startsWithSlashSlash (cs : List Char) : Bool :=
  match cs with
  | '/' :: '/' :: _ => true
  | _ => false

/-- One step of the delimiter-keeping split of `lib.rs::split`: the regex
`([\s+,.:])|("(.*?)")|([()])` is matched left to right; matched delimiters are
kept as lexemes of their own.  `fuel` bounds the scan (one unit per step). -/
def splitKeepF (fuel : Nat) (pending : List Char) (cs : List Char) :
    List (List Char) :=
  match fuel with
  | 0 => if pending = [] then [] else [pending]
  | Nat.succ n =>
    match cs with
    | [] => if pending = [] then [] else [pending]
    | c :: rest =>
      if isClass1 c then
        (if pending = [] then [[c]] else [pending, [c]]) ++ splitKeepF n [] rest
      else if c = '"' && rest.contains '"' then
        let inside := rest.takeWhile (fun d => ¬ d = '"')
        let after := (rest.dropWhile (fun d => ¬ d = '"')).drop 1
        (if pending = [] then [('"' :: inside) ++ ['"']]
         else [pending, ('"' :: inside) ++ ['"']]) ++ splitKeepF n [] after
      else if c = '(' || c = ')' then
        (if pending = [] then [[c]] else [pending, [c]]) ++ splitKeepF n [] rest
      else
        splitKeepF n (pending ++ [c]) rest

/-- ASCII whitespace for `str::trim`. -/
def isWs (c : Char) : Bool :=
  c = ' ' || c = '\t' || c = '\r' || c = '\n' || c = '\x0b' || c = '\x0c'

/-- `str::trim` on a char list. -/
def trimCh (cs : List Char) : List Char :=
  ((cs.dropWhile isWs).reverse.dropWhile isWs).reverse

/-- The words of one source line: split keeping delimiters, trim each word,
drop the empty ones (`get_lines`, inner loop). -/
def lineWords (cs : List Char) : List String :=
  ((splitKeepF (cs.length + 1) [] cs).map (fun w => String.mk (trimCh w))).filter
    (fun w => ¬ w = "")

/-- `lib.rs::get_lines`: split into lines, skip `//` comment lines entirely,
turn each remaining line into its word list. -/
def getLines (code : String) : List (List String) :=
  ((splitLinesCh code.data).filter (fun l => ¬ startsWithSlashSlash l)).map
    lineWords

/-- The keyword/symbol table of `transform_into_tokens`. -/
def opOf (w : String) : Ops :=
  if w = "let" then .VarDef
  else if w = "=" then .LeftAssign
  else if w = "(" then .OpenParent
  else if w = ")" then .CloseParent
  else if w = "fn" then .FnDef
  else if w = "\x7b" then .OpenBlock
  else if w = "\x7d" then .CloseBlock
  else if w = "if" then .IfConditional
  else if w = "==" then .EqualCondition
  else if w = "return" then .Return
  else if w = "." then .PropAccess
  else if w = "," then .CommaDelimiter
  else if w = "while" then .WhileDef
  else if w = "!=" then .NotEqualCondition
  else if w = "import" then .Import
  else if w = "from" then .FromModule
  else if w = "break" then .Break
  else .Reference

/-- `transform_into_tokens`, with the running `enumerate` index made explicit:
every word of the line with (0-based) index `i` becomes a token carrying line
`i + 1`. -/
def transformIntoTokensFrom (i : Nat) (lines : List (List String)) :
    List Token :=
  match lines with
  | [] => []
  | line :: rest =>
    line.map (fun w => Token.mk (opOf w) w (i + 1)) ++
      transformIntoTokensFrom (i + 1) rest

/-- `lib.rs::transform_into_tokens`. -/
def transformIntoTokens (lines : List (List String)) : List Token :=
  transformIntoTokensFrom 0 lines

/-- `lib.rs::get_tokens`: the full lexer. -/
def getTokens (code : String) : List Token :=
  transformIntoTokens (getLines code)

/- ### `format` substitution (`stack.rs`, `format` built-in) -/

/-- The opening brace character. -/
def lb : Char := '\x7b'

/-- The closing brace character. -/
def rb : Char := '\x7d'

/-- Does the list start with the two-character pattern `\x7b\x7d`? -/
def patPrefixB : List Char → Bool
  | a :: b :: _ => a = lb && b = rb
  | _ => false

/-- `template.replacen("\x7b\x7d", rep, 1)`: replace the first occurrence of
the brace pair, leave everything else untouched. -/
def replaceOnceCh : List Char → List Char → List Char
  | [], _ => []
  | c :: cs, rep =>
    if patPrefixB (c :: cs) then rep ++ cs.drop 1
    else c :: replaceOnceCh cs rep

/-- String wrapper of `replaceOnceCh`. -/
def replacenBrace (s a : String) : String :=
  String.mk (replaceOnceCh s.data a.data)

/-- The core of the `format` built-in (`stack.rs::Stack::new`): the first
stringified argument is the template, each following argument replaces the
first brace pair of the *current* template in turn; an empty argument vector
panics (`args[0]`), modelled as `none`. -/
def hamFormatStrings : List String → Option String
  | [] => none
  | t :: rest => some (rest.foldl replacenBrace t)

/-- Modelled from the spec: "substitute each `\x7b\x7d` occurrence in order,
one per arg, single-pass".  The template is scanned once; each occurrence
consumes the next argument, and substituted argument text is never rescanned. -/
def substTemplateCh : List Char → List String → List Char
  | [], _ => []
  | [c], _ => [c]
  | c :: d :: cs, args =>
    match args with
    | [] => c :: substTemplateCh (d :: cs) []
    | a :: rest =>
      if c = lb && d = rb then a.data ++ substTemplateCh cs rest
      else c :: substTemplateCh (d :: cs) (a :: rest)

/-- String wrapper of `substTemplateCh` (the spec's single-pass `format`). -/
def formatSinglePass (t : String) (args : List String) : String :=
  String.mk (substTemplateCh t.data args)

/- ### AST and runtime values -/

mutual

/-- Runtime / operand payloads (`dyn PrimitiveValueBase`): the concrete
primitives (`Boolean`, `Number`, `StringVal`, `Pointer`), the parser artifact
`Reference`, and the carrier nodes `FnCall` and `Expression` which also
implement `PrimitiveValueBase` in the source. -/
inductive PrimVal where
  | bool (b : Bool)
  | num (n : Nat)
  | str (s : String)
  | pointer (id : Nat)
  | ref (name : String)
  | fnCallV (fn_name : String) (reference_to : Option String)
      (arguments : List BoxedValue)
  | exprV (body : List AstNode) (expr_id : String)

/-- `ast_types::boxed_val::BoxedValue`: a tagged payload. -/
inductive BoxedValue where
  | mk (interface : Ops) (value : PrimVal)

/-- `ast_types::result::ResultExpression`: one condition `left rel right`. -/
inductive ResultExpr where
  | mk (relation : Ops) (left : BoxedValue) (right : BoxedValue)

/-- `ast_types::fn_def::FnDefinition`: name, body, argument names. -/
inductive FnDefNode where
  | mk (def_name : String) (body : List AstNode) (arguments : List String)

/-- The statement shapes the parser produces and `run_ast` dispatches on. -/
inductive AstNode where
  | breakNode
  | moduleNode (name : String) (functions : List FnDefNode)
  | whileNode (conditions : List ResultExpr) (body : List AstNode)
  | returnNode (value : BoxedValue)
  | ifNode (conditions : List ResultExpr) (body : List AstNode)
  | fnDefNode (f : FnDefNode)
  | varDefNode (def_name : String) (assignment : BoxedValue)
  | varAssignNode (var_name : String) (assignment : BoxedValue)
  | fnCallNode (fn_name : String) (reference_to : Option String)
      (arguments : List BoxedValue)

end

/-- Kind tag of a boxed value. -/
def BoxedValue.interface : BoxedValue → Ops
  | .mk i _ => i

/-- Payload of a boxed value. -/
def BoxedValue.value : BoxedValue → PrimVal
  | .mk _ v => v

/-- Relation of a condition. -/
def ResultExpr.relation : ResultExpr → Ops
  | .mk r _ _ => r

/-- Left side of a condition. -/
def ResultExpr.left : ResultExpr → BoxedValue
  | .mk _ l _ => l

/-- Right side of a condition. -/
def ResultExpr.right : ResultExpr → BoxedValue
  | .mk _ _ r => r

/-- Name of a function definition node. -/
def FnDefNode.def_name : FnDefNode → String
  | .mk n _ _ => n

/-- Body of a function definition node. -/
def FnDefNode.body : FnDefNode → List AstNode
  | .mk _ b _ => b

/-- Argument names of a function definition node. -/
def FnDefNode.arguments : FnDefNode → List String
  | .mk _ _ a => a

/-- The distinct native behaviours a `FunctionDef.cb` can be in the source:
the five globals seeded by `Stack::new` and the two `Number` methods of
`runtime::get_methods_in_type`. -/
inductive Builtin where
  | clearScreen | formatStr | printStr | printlnStr | waitMs | sum | mutSum
  deriving DecidableEq, Repr

/-- A `FunctionAction`: either one of the native hooks or the shared
user-function interpreter installed by `lib.rs::get_function_from_def`. -/
inductive Callback where
  | builtin (b : Builtin)
  | user
  deriving DecidableEq, Repr

/-- `stack.rs::FunctionDef`. -/
structure FunctionDef where
  name : String
  body : List AstNode
  cb : Callback
  expr_id : String
  arguments : List String

/-- `stack.rs::VariableDef`. -/
structure VariableDef where
  name : String
  val_type : Ops
  value : PrimVal
  expr_id : String
  functions : List (String × FunctionDef)
  var_id : Nat

/-- `stack.rs::Stack`: `functions` models the `HashMap<String, FunctionDef>`
as an association list (insert-or-replace by key, iteration in insertion
order), `vars` the `Vec<VariableDef>` (Lean reserves the name `variables`), `item_index` the id counter. -/
structure Stack where
  functions : List (String × FunctionDef)
  vars : List VariableDef
  item_index : Nat

/-- `HashMap::insert`: replace the entry with the same key, else append. -/
def hmInsert (m : List (String × FunctionDef)) (k : String) (v : FunctionDef) :
    List (String × FunctionDef) :=
  if m.any (fun p => p.1 = k) then
    m.map (fun p => if p.1 = k then (k, v) else p)
  else m ++ [(k, v)]

/-- First variable (front-to-back) with the given id
(`Stack::get_variable_by_id` / `get_mut_variable_by_id`). -/
def findFirstById (vars : List VariableDef) (i : Nat) : Option VariableDef :=
  match vars with
  | [] => none
  | v :: vs => if v.var_id = i then some v else findFirstById vs i

/-- Last variable (the `.rev()` scan) with the given name
(`Stack::get_variable_by_name` / `get_mut_variable_by_name`). -/
def findLastByName (vars : List VariableDef) (n : String) :
    Option VariableDef :=
  match vars with
  | [] => none
  | v :: vs =>
    match findLastByName vs n with
    | some w => some w
    | none => if v.name = n then some v else none

/-- Apply `f` to the first variable with the given id, keep the rest. -/
def updateFirstById (vars : List VariableDef) (i : Nat)
    (f : VariableDef → VariableDef) : List VariableDef :=
  match vars with
  | [] => []
  | v :: vs =>
    if v.var_id = i then f v :: vs else v :: updateFirstById vs i f

/-- Apply `f` to the last variable with the given name, keep the rest. -/
def updateLastByName (vars : List VariableDef) (n : String)
    (f : VariableDef → VariableDef) : List VariableDef :=
  match vars with
  | [] => []
  | v :: vs =>
    match findLastByName vs n with
    | some _ => v :: updateLastByName vs n f
    | none => if v.name = n then f v :: vs else v :: vs

/-- `Stack::reseve_index` (sic): increment and return the id counter. -/
def Stack.reseve_index (s : Stack) : Nat × Stack :=
  (s.item_index + 1, { s with item_index := s.item_index + 1 })

/-- `Stack::push_variable`: append, no deduplication. -/
def Stack.push_variable (s : Stack) (v : VariableDef) : Stack :=
  { s with vars := s.vars ++ [v] }

/-- `impl FunctionsContainer for Stack`, `push_function`: note the map key is
the function's `expr_id`, not its name. -/
def Stack.push_function (s : Stack) (f : FunctionDef) : Stack :=
  { s with functions := hmInsert s.functions f.expr_id f }

/-- `impl FunctionsContainer for Stack`, `get_function_by_name`: scan the map
values for the first function whose `name` field matches. -/
def Stack.get_function_by_name (s : Stack) (n : String) : Option FunctionDef :=
  (s.functions.find? (fun p => p.2.name = n)).map Prod.snd

/-- `impl FunctionsContainer for VariableDef`, `get_function_by_name`: a map
lookup by key. -/
def VariableDef.get_function_by_name (v : VariableDef) (n : String) :
    Option FunctionDef :=
  (v.functions.find? (fun p => p.1 = n)).map Prod.snd

/-- `Stack::get_variable_by_id`. -/
def Stack.get_variable_by_id (s : Stack) (i : Nat) : Option VariableDef :=
  findFirstById s.vars i

/-- `Stack::get_variable_by_name` (newest first). -/
def Stack.get_variable_by_name (s : Stack) (n : String) : Option VariableDef :=
  findLastByName s.vars n

/-- `Stack::drop_ops_from_id`: retain only entries of other scopes. -/
def Stack.drop_ops_from_id (s : Stack) (id : String) : Stack :=
  { s with
    vars := s.vars.filter (fun v => ¬ v.expr_id = id),
    functions := s.functions.filter (fun p => ¬ p.2.expr_id = id) }

/-- `Stack::modify_var`.  Returns `none` on the `downcast_val::<Pointer>`
panic (the stored type says `Pointer` but the payload is not one); otherwise
returns the updated stack together with the diagnostics it raised.  Note the
dangling-pointer branch (`else { /* Broken pointer */ }`) does nothing and
raises nothing, and the non-pointer branch only overwrites `value`. -/
def Stack.modify_var (s : Stack) (nm : String) (v : BoxedValue) :
    Option (Stack × List ErrCode) :=
  match s.get_variable_by_name nm with
  | none => some (s, [ErrCode.VariableNotFound])
  | some var =>
    if var.val_type = Ops.Pointer then
      match var.value with
      | PrimVal.pointer pid =>
        match findFirstById s.vars pid with
        | some _ =>
          some ({ s with
            vars := updateFirstById s.vars pid
              (fun o => { o with value := v.value, val_type := v.interface }) },
            [])
        | none => some (s, [])
      | _ => none
    else
      some ({ s with
        vars := updateLastByName s.vars nm
          (fun o => { o with value := v.value }) }, [])

/- ### Stringification (`runtime.rs::value_to_string`) -/

/-- Outcome of `value_to_string`: the `Ok` string, the `Err(interface)` result,
a panic (`crash`, from the `.unwrap()` on a dangling pointer or a failed
downcast), or fuel exhaustion. -/
inductive StrRes where
  | ok (s : String)
  | err (k : Ops)
  | crash
  | fuel
  deriving DecidableEq, Repr

/-- `runtime.rs::value_to_string`.  A live pointer is resolved once and the
stringifier recurses on the target; a dangling pointer hits
`get_variable_by_id(...).unwrap()` and panics (`crash`). -/
def valueToString (fuel : Nat) (v : BoxedValue) (stack : Stack) : StrRes :=
  match fuel with
  | 0 => .fuel
  | Nat.succ n =>
    match v.interface, v.value with
    | Ops.Boolean, PrimVal.bool b => .ok (if b then "true" else "false")
    | Ops.Boolean, _ => .crash
    | Ops.String, PrimVal.str s => .ok s
    | Ops.String, _ => .crash
    | Ops.Number, PrimVal.num k => .ok (Nat.repr k)
    | Ops.Number, _ => .crash
    | Ops.Pointer, PrimVal.pointer pid =>
      match stack.get_variable_by_id pid with
      | some var => valueToString n (BoxedValue.mk var.val_type var.value) stack
      | none => .crash
    | Ops.Pointer, _ => .crash
    | k, _ => .err k

/-- Outcome of `values_to_strings` (which `.unwrap()`s every element, so an
`Err` is also a panic). -/
inductive StrsRes where
  | ok (l : List String)
  | crash
  | fuel
  deriving DecidableEq, Repr

/-- `runtime.rs::values_to_strings`. -/
def valuesToStrings (fuel : Nat) (vs : List BoxedValue) (stack : Stack) :
    StrsRes :=
  match vs with
  | [] => .ok []
  | v :: rest =>
    match valueToString fuel v stack with
    | .ok s =>
      match valuesToStrings fuel rest stack with
      | .ok l => .ok (s :: l)
      | .crash => .crash
      | .fuel => .fuel
    | .err _ => .crash
    | .crash => .crash
    | .fuel => .fuel

/- ### Evaluator state and outcomes -/

/-- The evaluator's mutable context: the shared stack, the diagnostics printed
so far (`raise_error` calls, in order), and the counter backing the
`Uuid::new_v4` fresh-scope-id generator. -/
structure EvalState where
  stack : Stack
  errs : List ErrCode
  uuid : Nat

/-- Append one diagnostic (`errors::raise_error`). -/
def EvalState.raise (st : EvalState) (e : ErrCode) : EvalState :=
  { st with errs := st.errs ++ [e] }

/-- Draw a fresh scope id (`Uuid::new_v4().to_string()`, modelled as a
deterministic supply). -/
def EvalState.fresh (st : EvalState) : String × EvalState :=
  ("#" ++ Nat.repr st.uuid, { st with uuid := st.uuid + 1 })

/-- Outcome of an evaluator step: a value plus the updated state, a panic
(`crash`), or fuel exhaustion. -/
inductive Out (α : Type) where
  | ok (a : α) (st : EvalState)
  | crash
  | fuel

/-- What one statement of `run_ast`'s dispatch loop does: fall through to the
next statement, or `return` from `run_ast` with the given optional value. -/
inductive Step where
  | next
  | retn (v : Option BoxedValue)

/-- The `Break` sentinel `run_ast` returns for a `break` statement. -/
def breakSentinel : BoxedValue := BoxedValue.mk Ops.Break (PrimVal.str "break")

/-- The synthetic `WhileDef` sentinel `check_while` returns after an
iteration that completed normally. -/
def whileSentinel : BoxedValue := BoxedValue.mk Ops.WhileDef (PrimVal.str "while")

/-- The `sum` method of `Number` (`runtime.rs::get_methods_in_type`). -/
def sumFnDef : FunctionDef :=
  { name := "sum", body := [], cb := Callback.builtin Builtin.sum,
    expr_id := "", arguments := [] }

/-- The `mut_sum` method of `Number`. -/
def mutSumFnDef : FunctionDef :=
  { name := "mut_sum", body := [], cb := Callback.builtin Builtin.mutSum,
    expr_id := "", arguments := [] }

/-- `runtime.rs::get_methods_in_type`: `Number` gets `sum` and `mut_sum`,
every other type gets none. -/
def getMethodsInType : Ops → List (String × FunctionDef)
  | Ops.Number => [("sum", sumFnDef), ("mut_sum", mutSumFnDef)]
  | _ => []

/-- `lib.rs::get_function_from_def`: wrap a parsed definition as a stack
function whose callback is the shared user-function interpreter; its
`expr_id` is a *freshly generated uuid* (not the id of any enclosing block). -/
def getFunctionFromDef (f : FnDefNode) (freshId : String) : FunctionDef :=
  { name := f.def_name, body := f.body, cb := Callback.user,
    expr_id := freshId, arguments := f.arguments }

/-- `Stack::new`: the five built-ins, keyed by name, bound to `expr_id`. -/
def Stack.new (expr_id : String) : Stack :=
  { functions :=
      [("clear",
        { name := "clear", body := [], cb := Callback.builtin Builtin.clearScreen,
          expr_id := expr_id, arguments := [] }),
       ("format",
        { name := "format", body := [], cb := Callback.builtin Builtin.formatStr,
          expr_id := expr_id, arguments := [] }),
       ("print",
        { name := "print", body := [], cb := Callback.builtin Builtin.printStr,
          expr_id := expr_id, arguments := [] }),
       ("println",
        { name := "println", body := [], cb := Callback.builtin Builtin.printlnStr,
          expr_id := expr_id, arguments := [] }),
       ("wait",
        { name := "wait", body := [], cb := Callback.builtin Builtin.waitMs,
          expr_id := expr_id, arguments := [] })],
    vars := [],
    item_index := 0 }

/-- Decimal parse for the `wait` built-in's `parse::<u64>()`. -/
def parseNatCh : List Char → Option Nat → Option Nat
  | [], acc => acc
  | c :: cs, acc =>
    if c.isDigit then
      parseNatCh cs (some ((acc.getD 0) * 10 + (c.toNat - '0'.toNat)))
    else none

/-- Does the string start with `&` (Rust `starts_with('&')`)? -/
def strStartsAmp (s : String) : Bool :=
  match s.data with
  | '&' :: _ => true
  | _ => false

/-- Drop the first character (Rust `String::remove(0)` on the name). -/
def strDropFirst (s : String) : String :=
  String.mk (s.data.drop 1)

/-- The native hooks.  `fuel` only feeds `value_to_string`; no native hook
re-enters the evaluator. -/
def builtinCall (fuel : Nat) (b : Builtin) (args : List BoxedValue)
    (st : EvalState) : Out (Option BoxedValue) :=
  match b with
  | Builtin.clearScreen => .ok none st
  | Builtin.formatStr =>
    match valuesToStrings fuel args st.stack with
    | .ok strs =>
      match hamFormatStrings strs with
      | some res => .ok (some (BoxedValue.mk Ops.String (PrimVal.str res))) st
      | none => .crash
    | .crash => .crash
    | .fuel => .fuel
  | Builtin.printStr =>
    match valuesToStrings fuel args st.stack with
    | .ok _ => .ok none st
    | .crash => .crash
    | .fuel => .fuel
  | Builtin.printlnStr =>
    match valuesToStrings fuel args st.stack with
    | .ok _ => .ok none st
    | .crash => .crash
    | .fuel => .fuel
  | Builtin.waitMs =>
    match args.head? with
    | none => .crash
    | some a =>
      match valueToString fuel a st.stack with
      | .ok s =>
        match parseNatCh s.data none with
        | some _ => .ok none st
        | none => .crash
      | .err _ => .crash
      | .crash => .crash
      | .fuel => .fuel
  | Builtin.sum =>
    match args.head? with
    | none => .crash
    | some a0 =>
      match valueToString fuel a0 st.stack with
      | .ok varName =>
        match args[1]? with
        | none => .crash
        | some a1 =>
          match a1.value with
          | PrimVal.num k =>
            match st.stack.get_variable_by_name varName with
            | some cur =>
              match cur.value with
              | PrimVal.num c =>
                .ok (some (BoxedValue.mk Ops.Number (PrimVal.num (c + k)))) st
              | _ => .crash
            | none => .ok none st
          | _ => .crash
      | .err _ => .crash
      | .crash => .crash
      | .fuel => .fuel
  | Builtin.mutSum =>
    match args.head? with
    | none => .crash
    | some a0 =>
      match valueToString fuel a0 st.stack with
      | .ok varName =>
        match args[1]? with
        | none => .crash
        | some a1 =>
          match a1.value with
          | PrimVal.num k =>
            match st.stack.get_variable_by_name varName with
            | some cur =>
              match cur.value with
              | PrimVal.num c =>
                match st.stack.modify_var varName
                    (BoxedValue.mk Ops.Number (PrimVal.num (c + k))) with
                | some (s2, es) =>
                  .ok none { st with stack := s2, errs := st.errs ++ es }
                | none => .crash
              | _ => .crash
            | none => .ok none st
          | _ => .crash
      | .err _ => .crash
      | .crash => .crash
      | .fuel => .fuel

/-- Function lookup of the `FnCall` paths: with a `reference_to`, fetch the
variable (`.unwrap()` panics when it is missing) and ask it for the method;
otherwise ask the stack.  Either container raises `FunctionNotFound` on a
miss. -/
def fnLookup (referenceTo : Option String) (fname : String) (st : EvalState) :
    Out (Option FunctionDef) :=
  match referenceTo with
  | some rname =>
    match st.stack.get_variable_by_name rname with
    | none => .crash
    | some var =>
      match var.get_function_by_name fname with
      | some f => .ok (some f) st
      | none => .ok none (st.raise ErrCode.FunctionNotFound)
  | none =>
    match st.stack.get_function_by_name fname with
    | some f => .ok (some f) st
    | none => .ok none (st.raise ErrCode.FunctionNotFound)

/-- Push the resolved call arguments as variables of the fresh function scope
(`get_function_from_def`, argument loop).  Rust indexes `args[i]` for each
value, so more values than names is a panic (`none`). -/
def pushArgVars (names : List String) (vals : List BoxedValue) (eid : String)
    (s : Stack) : Option Stack :=
  match vals, names with
  | [], _ => some s
  | _ :: _, [] => none
  | v :: vs, nm :: nms =>
    let (vid, s1) := s.reseve_index
    let argVar : VariableDef :=
      { name := nm, val_type := v.interface, value := v.value,
        expr_id := eid, functions := getMethodsInType v.interface,
        var_id := vid }
    pushArgVars nms vs eid (s1.push_variable argVar)

/-- Build a module's method map (`run_ast`, `Ops::Module` arm): each exported
function gets a synthetic leading `_` parameter and a fresh uuid `expr_id`,
and is inserted keyed by its name. -/
def moduleFnMapGo (fns : List FnDefNode) (acc : List (String × FunctionDef))
    (st : EvalState) : List (String × FunctionDef) × EvalState :=
  match fns with
  | [] => (acc, st)
  | f :: rest =>
    let f2 : FnDefNode := FnDefNode.mk f.def_name f.body ("_" :: f.arguments)
    let (eidF, st1) := st.fresh
    moduleFnMapGo rest (hmInsert acc f2.def_name (getFunctionFromDef f2 eidF)) st1

/-- Map a block evaluation outcome onto the statement loop: an early value is
`return`ed from `run_ast`, no value falls through to the next statement. -/
def propagateStep : Out (Option BoxedValue) → Out Step
  | .ok (some r) st => .ok (Step.retn (some r)) st
  | .ok none st => .ok Step.next st
  | .crash => .crash
  | .fuel => .fuel

/- ### The evaluator (`lib.rs::run_ast`, `runtime.rs::resolve_reference`) -/

mutual

/-- `runtime.rs::resolve_reference`.  Note there is no `Expression` arm: a
carrier block falls through to the final `_ => None`. -/
def resolveRef (fuel : Nat) (vt : Ops) (rv : PrimVal) (st : EvalState) :
    Out (Option BoxedValue) :=
  match fuel with
  | 0 => .fuel
  | Nat.succ n =>
    match vt with
    | Ops.Pointer =>
      match rv with
      | PrimVal.pointer pid =>
        match st.stack.get_variable_by_id pid with
        | some var => .ok (some (BoxedValue.mk var.val_type var.value)) st
        | none => .ok none (st.raise ErrCode.BrokenPointer)
      | _ => .crash
    | Ops.String => .ok (some (BoxedValue.mk vt rv)) st
    | Ops.Boolean => .ok (some (BoxedValue.mk vt rv)) st
    | Ops.Number => .ok (some (BoxedValue.mk vt rv)) st
    | Ops.Reference =>
      match rv with
      | PrimVal.ref name0 =>
        let isPtr := strStartsAmp name0
        let nm := if isPtr then strDropFirst name0 else name0
        match st.stack.get_variable_by_name nm with
        | some var =>
          if isPtr then
            .ok (some (BoxedValue.mk Ops.Pointer (PrimVal.pointer var.var_id))) st
          else
            .ok (some (BoxedValue.mk var.val_type var.value)) st
        | none => .ok none (st.raise ErrCode.VariableNotFound)
      | _ => .crash
    | Ops.FnCall =>
      match rv with
      | PrimVal.fnCallV fname refTo args =>
        match fnLookup refTo fname st with
        | .ok (some f) st1 =>
          let pre : List BoxedValue :=
            match refTo with
            | some rname => [BoxedValue.mk Ops.String (PrimVal.str rname)]
            | none => []
          match resolveArgs n args st1 with
          | .ok rargs st2 => callFunction n f (pre ++ rargs) st2
          | .crash => .crash
          | .fuel => .fuel
        | .ok none st1 => .ok none st1
        | .crash => .crash
        | .fuel => .fuel
      | _ => .crash
    | _ => .ok none st

/-- Resolve a call's argument list in order; unresolvable arguments are
silently skipped (`// Broken argument`). -/
def resolveArgs (fuel : Nat) (args : List BoxedValue) (st : EvalState) :
    Out (List BoxedValue) :=
  match fuel with
  | 0 => .fuel
  | Nat.succ n =>
    match args with
    | [] => .ok [] st
    | a :: rest =>
      match resolveRef n a.interface a.value st with
      | .ok (some r) st1 =>
        match resolveArgs n rest st1 with
        | .ok rs st2 => .ok (r :: rs) st2
        | .crash => .crash
        | .fuel => .fuel
      | .ok none st1 => resolveArgs n rest st1
      | .crash => .crash
      | .fuel => .fuel

/-- Invoke a function definition's callback on already-resolved arguments.
User functions run the shared interpreter of `get_function_from_def`: fresh
scope, arguments pushed as scope variables, body evaluated, scope dropped,
returned value re-resolved. -/
def callFunction (fuel : Nat) (f : FunctionDef) (argVals : List BoxedValue)
    (st : EvalState) : Out (Option BoxedValue) :=
  match fuel with
  | 0 => .fuel
  | Nat.succ n =>
    match f.cb with
    | Callback.builtin b => builtinCall n b argVals st
    | Callback.user =>
      let (eid, st1) := st.fresh
      match pushArgVars f.arguments argVals eid st1.stack with
      | none => .crash
      | some s2 =>
        match runStmts n f.body eid { st1 with stack := s2 } with
        | .ok r st3 =>
          let st4 := { st3 with stack := st3.stack.drop_ops_from_id eid }
          match r with
          | some rv => resolveRef n rv.interface rv.value st4
          | none => .ok none st4
        | .crash => .crash
        | .fuel => .fuel

/-- `run_ast`: iterate the statements of the block with id `eid`; a `retn`
step exits with its value, falling off the end yields `None`. -/
def runStmts (fuel : Nat) (stmts : List AstNode) (eid : String)
    (st : EvalState) : Out (Option BoxedValue) :=
  match fuel with
  | 0 => .fuel
  | Nat.succ n =>
    match stmts with
    | [] => .ok none st
    | stmt :: rest =>
      match runStmt n stmt eid st with
      | .ok Step.next st1 => runStmts n rest eid st1
      | .ok (Step.retn v) st1 => .ok v st1
      | .crash => .crash
      | .fuel => .fuel

/-- One arm of `run_ast`'s statement dispatch. -/
def runStmt (fuel : Nat) (stmt : AstNode) (eid : String) (st : EvalState) :
    Out Step :=
  match fuel with
  | 0 => .fuel
  | Nat.succ n =>
    match stmt with
    | AstNode.breakNode => .ok (Step.retn (some breakSentinel)) st
    | AstNode.moduleNode mname fns =>
      let (vid, s1) := st.stack.reseve_index
      let (fmap, st2) := moduleFnMapGo fns [] { st with stack := s1 }
      let modVar : VariableDef :=
        { name := mname, val_type := Ops.String, value := PrimVal.str mname,
          expr_id := eid, functions := fmap, var_id := vid }
      .ok Step.next { st2 with stack := st2.stack.push_variable modVar }
    | AstNode.whileNode conds body => propagateStep (whileLoop n conds body st)
    | AstNode.returnNode v =>
      match resolveRef n v.interface v.value st with
      | .ok r st1 => .ok (Step.retn r) st1
      | .crash => .crash
      | .fuel => .fuel
    | AstNode.ifNode conds body =>
      match evalConditions n conds st with
      | .ok k st1 =>
        if k = conds.length then propagateStep (runIfBody n body st1)
        else .ok Step.next st1
      | .crash => .crash
      | .fuel => .fuel
    | AstNode.fnDefNode f =>
      let (eidF, st1) := st.fresh
      .ok Step.next
        { st1 with stack := st1.stack.push_function (getFunctionFromDef f eidF) }
    | AstNode.varDefNode dname assignment =>
      match resolveRef n assignment.interface assignment.value st with
      | .ok (some r) st1 =>
        let (vid, s2) := st1.stack.reseve_index
        let newVar : VariableDef :=
          { name := dname, val_type := r.interface, value := r.value,
            expr_id := eid, functions := getMethodsInType r.interface,
            var_id := vid }
        .ok Step.next { st1 with stack := s2.push_variable newVar }
      | .ok none st1 => .ok Step.next st1
      | .crash => .crash
      | .fuel => .fuel
    | AstNode.varAssignNode vname assignment =>
      let realName := if strStartsAmp vname then strDropFirst vname else vname
      match resolveRef n assignment.interface assignment.value st with
      | .ok (some r) st1 =>
        match st1.stack.modify_var realName r with
        | some (s2, es) =>
          .ok Step.next { st1 with stack := s2, errs := st1.errs ++ es }
        | none => .crash
      | .ok none st1 => .ok Step.next st1
      | .crash => .crash
      | .fuel => .fuel
    | AstNode.fnCallNode fname refTo args =>
      match fnLookup refTo fname st with
      | .ok (some f) st1 =>
        let pre : List BoxedValue :=
          match refTo with
          | some rname => [BoxedValue.mk Ops.String (PrimVal.str rname)]
          | none => []
        match resolveArgs n args st1 with
        | .ok rargs st2 =>
          match callFunction n f (pre ++ rargs) st2 with
          | .ok (some ret) st3 =>
            match valueToString n ret st3.stack with
            | .ok _ =>
              match valuesToStrings n (pre ++ rargs) st3.stack with
              | .ok _ => .ok Step.next (st3.raise ErrCode.ReturnedValueNotUsed)
              | .crash => .crash
              | .fuel => .fuel
            | .err _ => .ok Step.next st3
            | .crash => .crash
            | .fuel => .fuel
          | .ok none st3 => .ok Step.next st3
          | .crash => .crash
          | .fuel => .fuel
        | .crash => .crash
        | .fuel => .fuel
      | .ok none st1 => .ok Step.next st1
      | .crash => .crash
      | .fuel => .fuel

/-- The body of one `while` iteration (`check_while`, the all-conditions-true
branch): fresh scope, run the body; an early value is returned *without*
dropping the scope, a normal completion drops the scope and yields the
`WhileDef` sentinel. -/
def runWhileBody (fuel : Nat) (body : List AstNode) (st : EvalState) :
    Out (Option BoxedValue) :=
  match fuel with
  | 0 => .fuel
  | Nat.succ n =>
    let (eid, st1) := st.fresh
    match runStmts n body eid st1 with
    | .ok (some r) st2 => .ok (some r) st2
    | .ok none st2 =>
      .ok (some whileSentinel)
        { st2 with stack := st2.stack.drop_ops_from_id eid }
    | .crash => .crash
    | .fuel => .fuel

/-- `check_while`: evaluate every condition, count the true ones, and run the
body iff the count equals the number of conditions. -/
def checkWhile (fuel : Nat) (conds : List ResultExpr) (body : List AstNode)
    (st : EvalState) : Out (Option BoxedValue) :=
  match fuel with
  | 0 => .fuel
  | Nat.succ n =>
    match evalConditions n conds st with
    | .ok k st1 =>
      if k = conds.length then runWhileBody n body st1 else .ok none st1
    | .crash => .crash
    | .fuel => .fuel

/-- The driver loop of the `WhileDef` arm: repeat `check_while` until it
yields `None` (conditions false) or a value; the `WhileDef` sentinel means
continue, `Break` stops the loop and is consumed, anything else propagates. -/
def whileLoop (fuel : Nat) (conds : List ResultExpr) (body : List AstNode)
    (st : EvalState) : Out (Option BoxedValue) :=
  match fuel with
  | 0 => .fuel
  | Nat.succ n =>
    match checkWhile n conds body st with
    | .ok none st1 => .ok none st1
    | .ok (some r) st1 =>
      match r.interface with
      | Ops.WhileDef => whileLoop n conds body st1
      | Ops.Break => .ok none st1
      | _ => .ok (some r) st1
    | .crash => .crash
    | .fuel => .fuel

/-- The body of an `if` whose conditions all hold: fresh scope, run the body;
an early value propagates *without* dropping the scope, otherwise the scope
is dropped. -/
def runIfBody (fuel : Nat) (body : List AstNode) (st : EvalState) :
    Out (Option BoxedValue) :=
  match fuel with
  | 0 => .fuel
  | Nat.succ n =>
    let (eid, st1) := st.fresh
    match runStmts n body eid st1 with
    | .ok (some r) st2 => .ok (some r) st2
    | .ok none st2 =>
      .ok none { st2 with stack := st2.stack.drop_ops_from_id eid }
    | .crash => .crash
    | .fuel => .fuel

/-- `run_ast`'s `eval_condition` closure: resolve both sides (always both),
and when both resolve compare the `value_to_string` forms under `==` / `!=`
(`.unwrap()` panics on a stringification error); otherwise the condition is
false. -/
def evalCondition (fuel : Nat) (rel : Ops) (l r : BoxedValue) (st : EvalState) :
    Out Bool :=
  match fuel with
  | 0 => .fuel
  | Nat.succ n =>
    match resolveRef n l.interface l.value st with
    | .ok lv st1 =>
      match resolveRef n r.interface r.value st1 with
      | .ok rv st2 =>
        match lv, rv with
        | some lvv, some rvv =>
          match rel with
          | Ops.NotEqualCondition =>
            match valueToString n lvv st2.stack with
            | .ok ls =>
              match valueToString n rvv st2.stack with
              | .ok rs => .ok (decide (¬ ls = rs)) st2
              | .err _ => .crash
              | .crash => .crash
              | .fuel => .fuel
            | .err _ => .crash
            | .crash => .crash
            | .fuel => .fuel
          | Ops.EqualCondition =>
            match valueToString n lvv st2.stack with
            | .ok ls =>
              match valueToString n rvv st2.stack with
              | .ok rs => .ok (decide (ls = rs)) st2
              | .err _ => .crash
              | .crash => .crash
              | .fuel => .fuel
            | .err _ => .crash
            | .crash => .crash
            | .fuel => .fuel
          | _ => .ok false st2
        | _, _ => .ok false st2
      | .crash => .crash
      | .fuel => .fuel
    | .crash => .crash
    | .fuel => .fuel

/-- The condition loop shared by the `IfConditional` and `WhileDef` arms:
evaluate *every* condition (no short-circuit) and count the true ones. -/
def evalConditions (fuel : Nat) (conds : List ResultExpr) (st : EvalState) :
    Out Nat :=
  match fuel with
  | 0 => .fuel
  | Nat.succ n =>
    match conds with
    | [] => .ok 0 st
    | c :: rest =>
      match evalCondition n c.relation c.left c.right st with
      | .ok b st1 =>
        match evalConditions n rest st1 with
        | .ok k st2 => .ok (if b then k + 1 else k) st2
        | .crash => .crash
        | .fuel => .fuel
      | .crash => .crash
      | .fuel => .fuel

end

/-- Modelled from the spec's reading of the condition loop: the list of the
individual condition results, in evaluation order, threading the state the
same way `evalConditions` does. -/
def evalConditionList (fuel : Nat) (conds : List ResultExpr) (st : EvalState) :
    Out (List Bool) :=
  match fuel with
  | 0 => .fuel
  | Nat.succ n =>
    match conds with
    | [] => .ok [] st
    | c :: rest =>
      match evalCondition n c.relation c.left c.right st with
      | .ok b st1 =>
        match evalConditionList n rest st1 with
        | .ok bs st2 => .ok (b :: bs) st2
        | .crash => .crash
        | .fuel => .fuel
      | .crash => .crash
      | .fuel => .fuel

/- ### Concrete fixtures used by the witnesses and counterexamples -/

/-- A stack with no functions and no variables. -/
def stackEmpty : Stack := { functions := [], vars := [], item_index := 0 }

/-- The initial evaluator state over the empty stack. -/
def st0 : EvalState := { stack := stackEmpty, errs := [], uuid := 0 }

/-- `st0` after one fresh scope id has been drawn. -/
def st0u1 : EvalState := { stack := stackEmpty, errs := [], uuid := 1 }

/-- The carrier block the parser builds for `let r = add(4, 6)`
(`get_assignment_token_fn`, `Ops::FnCall` arm): `let _ = add(4, 6)` followed
by `return _`. -/
def c1Carrier : PrimVal :=
  PrimVal.exprV
    [AstNode.varDefNode "_"
      (BoxedValue.mk Ops.FnCall
        (PrimVal.fnCallV "add" none
          [BoxedValue.mk Ops.Number (PrimVal.num 4),
           BoxedValue.mk Ops.Number (PrimVal.num 6)])),
     AstNode.returnNode (BoxedValue.mk Ops.Reference (PrimVal.ref "_"))]
    "c1e"

/-- `fn add(a, b) \x7b return a.sum(b) \x7d`. -/
def c1AddDef : FnDefNode :=
  FnDefNode.mk "add"
    [AstNode.returnNode
      (BoxedValue.mk Ops.FnCall
        (PrimVal.fnCallV "sum" (some "a")
          [BoxedValue.mk Ops.Reference (PrimVal.ref "b")]))]
    ["a", "b"]

/-- The program `fn add(a, b) ... let r = add(4, 6)` as parsed. -/
def c1Prog : List AstNode :=
  [AstNode.fnDefNode c1AddDef,
   AstNode.varDefNode "r" (BoxedValue.mk Ops.Expression c1Carrier)]

/-- The state after running `c1Prog`: the function was pushed (under its
fresh uuid key `#0`), but no variable named `r` exists. -/
def c1Final : EvalState :=
  { stack := { functions := [("#0", getFunctionFromDef c1AddDef "#0")],
               vars := [], item_index := 0 },
    errs := [], uuid := 1 }

/-- The program `while (no conditions) \x7b let x = 5 break \x7d`. -/
def c2Prog : List AstNode :=
  [AstNode.whileNode []
    [AstNode.varDefNode "x" (BoxedValue.mk Ops.Number (PrimVal.num 5)),
     AstNode.breakNode]]

/-- The variable the `while` body of `c2Prog` defines, tagged with the body
scope id `#0`. -/
def c2XVar : VariableDef :=
  { name := "x", val_type := Ops.Number, value := PrimVal.num 5,
    expr_id := "#0", functions := getMethodsInType Ops.Number, var_id := 1 }

/-- The state after running `c2Prog`: `x` is still on the stack. -/
def c2Final : EvalState :=
  { stack := { functions := [], vars := [c2XVar], item_index := 1 },
    errs := [], uuid := 1 }

/-- A variable of stored type `Pointer` whose payload points at the dead id
`99`. -/
def c3PtrVar : VariableDef :=
  { name := "p", val_type := Ops.Pointer, value := PrimVal.pointer 99,
    expr_id := "g", functions := [], var_id := 1 }

/-- A stack holding only the dangling-pointer variable `p`. -/
def c3Stack : Stack := { functions := [], vars := [c3PtrVar], item_index := 1 }

/-- The evaluator state over `c3Stack`. -/
def c3State : EvalState := { stack := c3Stack, errs := [], uuid := 0 }

/-- A user function named `f` defined in scope `a`. -/
def c4f1 : FunctionDef :=
  { name := "f", body := [], cb := Callback.user, expr_id := "a",
    arguments := [] }

/-- A second user function also named `f`, defined in scope `b`. -/
def c4f2 : FunctionDef :=
  { name := "f", body := [], cb := Callback.user, expr_id := "b",
    arguments := [] }

/-- A user function named `f` with `expr_id` `e`. -/
def c4g1 : FunctionDef :=
  { name := "f", body := [], cb := Callback.user, expr_id := "e",
    arguments := [] }

/-- A user function named `g` with the same `expr_id` `e`. -/
def c4g2 : FunctionDef :=
  { name := "g", body := [], cb := Callback.user, expr_id := "e",
    arguments := [] }

/-- A stack holding one `Number` variable `a = 3`. -/
def c8NumVar : VariableDef :=
  { name := "a", val_type := Ops.Number, value := PrimVal.num 3,
    expr_id := "g", functions := [], var_id := 1 }

/-- A stack with the single live variable `a`. -/
def c8Stack : Stack := { functions := [], vars := [c8NumVar], item_index := 1 }

/-- The two conditions `1 == 2` (false) and `nope == 1` (false because the
variable `nope` does not exist, which raises `VariableNotFound`). -/
def c5Conds : List ResultExpr :=
  [ResultExpr.mk Ops.EqualCondition
     (BoxedValue.mk Ops.Number (PrimVal.num 1))
     (BoxedValue.mk Ops.Number (PrimVal.num 2)),
   ResultExpr.mk Ops.EqualCondition
     (BoxedValue.mk Ops.Reference (PrimVal.ref "nope"))
     (BoxedValue.mk Ops.Number (PrimVal.num 1))]

/-- `st0` with the diagnostic the second condition of `c5Conds` raises. -/
def c5After : EvalState :=
  { stack := stackEmpty, errs := [ErrCode.VariableNotFound], uuid := 0 }

/- ### Theorems -/

/-- C1: `resolve_reference` has no arm for `Expression`-kinded operands: the
carrier block the parser builds for a call used as an assignment value (such
as `let r = add(4, 6)`) falls through to `_ => None` — the block body is
never evaluated, no scope is created or dropped, the state is untouched, and
the variable being defined is never pushed.  (The claim, which matches the
spec, says the block is evaluated and `r` receives the call's result.) -/
theorem c1_expression_operand_never_evaluated :
    (∀ (n : Nat) (body : List AstNode) (e : String) (st : EvalState),
      resolveRef (n + 1) Ops.Expression (PrimVal.exprV body e) st =
        Out.ok none st) ∧
    runStmts 9 c1Prog "glob" st0 = Out.ok none c1Final ∧
    c1Final.stack.get_variable_by_name "r" = none :=
  ⟨fun _ _ _ _ => rfl, rfl, rfl⟩

/-- C2: running `while \x7b let x = 5 break \x7d` leaves the variable `x`,
tagged with the while-body scope id `#0`, on the stack after the loop has
finished: `drop_ops_from_id` is skipped whenever the body's evaluation
returns a value (here the `Break` sentinel), so scope hygiene fails on the
early-exit paths. -/
theorem c2_scope_not_dropped_on_break :
    runStmts 9 c2Prog "glob" st0 = Out.ok none c2Final ∧
    c2Final.stack.vars = [c2XVar] ∧ c2XVar.expr_id = "#0" :=
  ⟨rfl, rfl, rfl⟩

/-- C3 counterexample: assigning through the variable `p`, whose stored type
is `Pointer` and whose payload points at the dead id `99`, returns with the
stack unchanged and raises *no* diagnostic at all — in particular no
`BrokenPointer`, contradicting the claim that any dereference (including the
`modify_var` path) raises `BrokenPointer`. -/
theorem c3_modify_var_silent_on_dangling :
    c3Stack.modify_var "p" (BoxedValue.mk Ops.Number (PrimVal.num 7)) =
      some (c3Stack, ([] : List ErrCode)) ∧
    decide (ErrCode.BrokenPointer ∈ ([] : List ErrCode)) = false :=
  ⟨rfl, rfl⟩

/-- C3 (amended): on the read path (`resolve_reference`), a pointer whose id
is no longer on the stack raises `BrokenPointer` and resolves to `None` with
the stack untouched; on the write path (`modify_var` through a stored
`Pointer`), a dead target id leaves the stack unchanged but raises no
diagnostic (the `else` branch holds only the comment `// Broken pointer`). -/
theorem c3_dangling_pointer_behaviour :
    (∀ (n pid : Nat) (st : EvalState),
      st.stack.get_variable_by_id pid = none →
      resolveRef (n + 1) Ops.Pointer (PrimVal.pointer pid) st =
        Out.ok none (st.raise ErrCode.BrokenPointer)) ∧
    (∀ (s : Stack) (nm : String) (pid : Nat) (var : VariableDef)
       (w : BoxedValue),
      s.get_variable_by_name nm = some var →
      var.val_type = Ops.Pointer →
      var.value = PrimVal.pointer pid →
      s.get_variable_by_id pid = none →
      s.modify_var nm w = some (s, [])) := by
  constructor
  · intro n pid st h
    simp [resolveRef, h]
  · intro s nm pid var w hname hty hval hdead
    have hdead2 : findFirstById s.vars pid = none := hdead
    simp [Stack.modify_var, hname, hty, hval, hdead2]

/-- Witness for C3: both halves of the amended statement applied at the
concrete dangling-pointer fixture. -/
theorem c3_dangling_pointer_behaviour_witness :
    (c3State.stack.get_variable_by_id 99 = none ∧
      resolveRef 4 Ops.Pointer (PrimVal.pointer 99) c3State =
        Out.ok none (c3State.raise ErrCode.BrokenPointer)) ∧
    (c3Stack.get_variable_by_name "p" = some c3PtrVar ∧
      c3Stack.modify_var "p" (BoxedValue.mk Ops.Boolean (PrimVal.bool true)) =
        some (c3Stack, [])) :=
  ⟨⟨rfl, c3_dangling_pointer_behaviour.1 3 99 c3State rfl⟩,
   ⟨rfl, c3_dangling_pointer_behaviour.2 c3Stack "p" 99 c3PtrVar
      (BoxedValue.mk Ops.Boolean (PrimVal.bool true)) rfl rfl rfl rfl⟩⟩

/-- C4: `Stack::push_function` keys the map by the function's `expr_id`, not
by its name.  Two functions both named `f` but from different scopes coexist
(no shadowing), while a second function pushed with the *same* `expr_id`
erases the first even though their names differ, making the first
unreachable: `get_function_by_name "f"` then misses (and in the source raises
`FunctionNotFound`).  This contradicts the claim (and the seeding in
`Stack::new` and the `VariableDef` implementation, which both key by name). -/
theorem c4_push_function_keyed_by_expr_id :
    ((stackEmpty.push_function c4f1).push_function c4f2).functions =
      [("a", c4f1), ("b", c4f2)] ∧
    ((stackEmpty.push_function c4g1).push_function c4g2).functions =
      [("e", c4g2)] ∧
    ((stackEmpty.push_function c4g1).push_function c4g2).get_function_by_name
      "f" = none :=
  ⟨rfl, rfl, rfl⟩

/-- C8 counterexample: stringifying a `Pointer` whose target id is not on the
stack panics (the `.unwrap()` on `get_variable_by_id`); it does not return the
`Err` result the claim describes, nor any string. -/
theorem c8_broken_pointer_stringify_panics :
    valueToString 5 (BoxedValue.mk Ops.Pointer (PrimVal.pointer 7)) stackEmpty =
      StrRes.crash ∧
    decide (StrRes.crash = StrRes.err Ops.Pointer) = false ∧
    decide (StrRes.crash = StrRes.ok "7") = false :=
  ⟨rfl, rfl, rfl⟩

/-- C8 (amended): `value_to_string` on a live pointer resolves it once and
recurses on the target's current value; on a dangling pointer it panics
(`crash`) rather than returning an error result. -/
theorem c8_pointer_stringification :
    ∀ (n pid : Nat) (s : Stack),
      (∀ var, s.get_variable_by_id pid = some var →
        valueToString (n + 1) (BoxedValue.mk Ops.Pointer (PrimVal.pointer pid))
          s = valueToString n (BoxedValue.mk var.val_type var.value) s) ∧
      (s.get_variable_by_id pid = none →
        valueToString (n + 1) (BoxedValue.mk Ops.Pointer (PrimVal.pointer pid))
          s = StrRes.crash) := by
  intro n pid s
  constructor
  · intro var h
    simp [valueToString, BoxedValue.interface, BoxedValue.value, h]
  · intro h
    simp [valueToString, BoxedValue.interface, BoxedValue.value, h]

/-- Witness for C8: the live-pointer half at the one-variable stack (the
pointer to `a = 3` stringifies like `a`'s value), and the dangling half at
the empty stack. -/
theorem c8_pointer_stringification_witness :
    (c8Stack.get_variable_by_id 1 = some c8NumVar ∧
      valueToString 4 (BoxedValue.mk Ops.Pointer (PrimVal.pointer 1)) c8Stack =
        valueToString 3 (BoxedValue.mk c8NumVar.val_type c8NumVar.value)
          c8Stack ∧
      valueToString 4 (BoxedValue.mk Ops.Pointer (PrimVal.pointer 1)) c8Stack =
        StrRes.ok "3") ∧
    (stackEmpty.get_variable_by_id 7 = none ∧
      valueToString 4 (BoxedValue.mk Ops.Pointer (PrimVal.pointer 7))
        stackEmpty = StrRes.crash) :=
  ⟨⟨rfl, (c8_pointer_stringification 3 1 c8Stack).1 c8NumVar rfl, rfl⟩,
   ⟨rfl, (c8_pointer_stringification 3 7 stackEmpty).2 rfl⟩⟩

/-- C6: whenever one iteration of a `while` (one `check_while` call) hands the
driver loop a `Break`-kinded value, the loop stops there, the statement
completes as a plain fall-through step (so no enclosing call, loop or block
ever sees the sentinel), and evaluation of the whole block continues with the
statements after the loop in the state the iteration left behind. -/
theorem c6_break_consumed_by_innermost_while :
    ∀ (n : Nat) (conds : List ResultExpr) (body rest : List AstNode)
      (eid : String) (st st1 : EvalState) (r : BoxedValue),
      checkWhile n conds body st = Out.ok (some r) st1 →
      r.interface = Ops.Break →
      runStmt (n + 2) (AstNode.whileNode conds body) eid st =
        Out.ok Step.next st1 ∧
      runStmts (n + 3) (AstNode.whileNode conds body :: rest) eid st =
        runStmts (n + 2) rest eid st1 := by
  intro n conds body rest eid st st1 r h1 h2
  cases r with
  | mk i v =>
    simp only [BoxedValue.interface] at h2
    subst h2
    have hw : whileLoop (n + 1) conds body st = Out.ok none st1 := by
      simp only [whileLoop, h1]
      rfl
    have hs : runStmt (n + 2) (AstNode.whileNode conds body) eid st =
        Out.ok Step.next st1 := by
      simp only [runStmt, hw]
      rfl
    refine ⟨hs, ?_⟩
    simp only [runStmts, hs]

/-- Witness for C6: a loop whose body is a single `break`; the iteration
returns the `Break` sentinel, the loop is consumed, and the trailing
`let y = 1` still runs. -/
theorem c6_break_consumed_witness :
    checkWhile 5 [] [AstNode.breakNode] st0 =
      Out.ok (some breakSentinel) st0u1 ∧
    breakSentinel.interface = Ops.Break ∧
    runStmt 7 (AstNode.whileNode [] [AstNode.breakNode]) "g" st0 =
      Out.ok Step.next st0u1 ∧
    runStmts 8 [AstNode.whileNode [] [AstNode.breakNode],
        AstNode.varDefNode "y" (BoxedValue.mk Ops.Number (PrimVal.num 1))] "g"
        st0 =
      runStmts 7 [AstNode.varDefNode "y"
        (BoxedValue.mk Ops.Number (PrimVal.num 1))] "g" st0u1 :=
  ⟨rfl, rfl,
   (c6_break_consumed_by_innermost_while 5 [] [AstNode.breakNode]
      [AstNode.varDefNode "y" (BoxedValue.mk Ops.Number (PrimVal.num 1))] "g"
      st0 st0u1 breakSentinel rfl rfl).1,
   (c6_break_consumed_by_innermost_while 5 [] [AstNode.breakNode]
      [AstNode.varDefNode "y" (BoxedValue.mk Ops.Number (PrimVal.num 1))] "g"
      st0 st0u1 breakSentinel rfl rfl).2⟩

/-- The count the condition loop computes is the number of `true`s in the
list of individual condition outcomes, reached through the same final state. -/
theorem aux_evalConditions_eq_list :
    ∀ (conds : List ResultExpr) (n : Nat) (st st1 : EvalState)
      (bs : List Bool),
      evalConditionList n conds st = Out.ok bs st1 →
      evalConditions n conds st = Out.ok (bs.count true) st1 ∧
        bs.length = conds.length := by
  intro conds
  induction conds with
  | nil =>
    intro n st st1 bs h
    cases n with
    | zero => simp [evalConditionList] at h
    | succ m =>
      simp only [evalConditionList] at h
      cases h
      exact ⟨rfl, rfl⟩
  | cons c cs ih =>
    intro n st st1 bs h
    cases n with
    | zero => simp [evalConditionList] at h
    | succ m =>
      simp only [evalConditionList] at h
      cases hc : evalCondition m c.relation c.left c.right st with
      | ok b stA =>
        rw [hc] at h
        dsimp only at h
        cases hrest : evalConditionList m cs stA with
        | ok bs2 st2 =>
          rw [hrest] at h
          dsimp only at h
          cases h
          obtain ⟨ihc, ihl⟩ := ih m stA st1 bs2 hrest
          constructor
          · simp only [evalConditions, hc, ihc]
            cases b <;> simp [List.count_cons]
          · simp [ihl]
        | crash =>
          rw [hrest] at h
          dsimp only at h
          cases h
        | fuel =>
          rw [hrest] at h
          dsimp only at h
          cases h
      | crash =>
        rw [hc] at h
        dsimp only at h
        cases h
      | fuel =>
        rw [hc] at h
        dsimp only at h
        cases h

/-- C5: if the conditions of an `if` (or of one `while` iteration) evaluate
to the outcome list `bs`, then every condition was evaluated (`bs` covers the
whole list and the final state — including the diagnostics of conditions past
an early false one — is the state after all of them), and the body runs iff
every entry of `bs` is true, each entry being the `==`/`!=` comparison of the
stringified resolved sides. -/
theorem c5_conditions_all_evaluated_conjunctive :
    ∀ (n : Nat) (conds : List ResultExpr) (body : List AstNode) (eid : String)
      (st st1 : EvalState) (bs : List Bool),
      evalConditionList n conds st = Out.ok bs st1 →
      bs.length = conds.length ∧
      evalConditions n conds st = Out.ok (bs.count true) st1 ∧
      runStmt (n + 1) (AstNode.ifNode conds body) eid st =
        (if bs.all id then propagateStep (runIfBody n body st1)
         else Out.ok Step.next st1) ∧
      checkWhile (n + 1) conds body st =
        (if bs.all id then runWhileBody n body st1 else Out.ok none st1) := by
  intro n conds body eid st st1 bs h
  obtain ⟨hcnt, hlen⟩ := aux_evalConditions_eq_list conds n st st1 bs h
  have hiff : (bs.count true = conds.length) ↔ (bs.all id = true) := by
    rw [← hlen, List.all_eq_true, List.count_eq_length]
    constructor
    · intro hall b hb
      exact (hall b hb).symm
    · intro hall b hb
      exact (hall b hb).symm
  refine ⟨hlen, hcnt, ?_, ?_⟩
  · simp only [runStmt, hcnt]
    by_cases hall : bs.all id = true
    · rw [if_pos (hiff.mpr hall), if_pos hall]
    · rw [if_neg (fun hc => hall (hiff.mp hc)), if_neg hall]
  · simp only [checkWhile, hcnt]
    by_cases hall : bs.all id = true
    · rw [if_pos (hiff.mpr hall), if_pos hall]
    · rw [if_neg (fun hc => hall (hiff.mp hc)), if_neg hall]

/-- Witness for C5: two conditions, the first false (`1 == 2`), the second
referring to the missing variable `nope` — its `VariableNotFound` diagnostic
is present in the final state, so it was evaluated even though the first
condition had already failed, and the body is skipped. -/
theorem c5_conditions_witness :
    evalConditionList 5 c5Conds st0 = Out.ok [false, false] c5After ∧
    c5After.errs = [ErrCode.VariableNotFound] ∧
    runStmt 6 (AstNode.ifNode c5Conds [AstNode.breakNode]) "g" st0 =
      Out.ok Step.next c5After ∧
    checkWhile 6 c5Conds [AstNode.breakNode] st0 = Out.ok none c5After := by
  refine ⟨rfl, rfl, ?_, ?_⟩
  · have h := (c5_conditions_all_evaluated_conjunctive 5 c5Conds
      [AstNode.breakNode] "g" st0 c5After [false, false] rfl).2.2.1
    simpa using h
  · have h := (c5_conditions_all_evaluated_conjunctive 5 c5Conds
      [AstNode.breakNode] "g" st0 c5After [false, false] rfl).2.2.2
    simpa using h

/-- A cons whose head is not the opening brace never starts the pattern. -/
theorem aux_patPrefixB_false_of_ne_lb (c : Char) (t : List Char)
    (h : ¬ c = lb) : patPrefixB (c :: t) = false := by
  cases t with
  | nil => rfl
  | cons d t2 => simp [patPrefixB, h]

/-- Scanning past a non-pattern head commutes with the single-pass
substitution. -/
theorem aux_subst_cons_nopat (c : Char) (w : List Char) (args : List String)
    (hp : patPrefixB (c :: w) = false) :
    substTemplateCh (c :: w) args = c :: substTemplateCh w args := by
  cases w with
  | nil => cases args <;> rfl
  | cons d cs =>
    cases args with
    | nil => rfl
    | cons a rest =>
      have hb : (decide (c = lb) && decide (d = rb)) = false := by
        simpa [patPrefixB] using hp
      simp [substTemplateCh, hb]

/-- With no arguments left the single-pass substitution is the identity. -/
theorem aux_subst_nil_args (cs : List Char) : substTemplateCh cs [] = cs := by
  induction cs with
  | nil => rfl
  | cons c w ih =>
    cases w with
    | nil => rfl
    | cons d t =>
      show c :: substTemplateCh (d :: t) [] = c :: d :: t
      rw [ih]

/-- The single-pass substitution skips over a prefix that contains no opening
brace. -/
theorem aux_subst_append_lbfree (w : List Char) :
    ∀ (x : List Char) (args : List String), (∀ ch ∈ w, ¬ ch = lb) →
      substTemplateCh (w ++ x) args = w ++ substTemplateCh x args := by
  induction w with
  | nil => intro x args _; rfl
  | cons d w2 ih =>
    intro x args h
    have hd : ¬ d = lb := h d (List.mem_cons_self d w2)
    have hp : patPrefixB (d :: (w2 ++ x)) = false :=
      aux_patPrefixB_false_of_ne_lb d (w2 ++ x) hd
    rw [List.cons_append, aux_subst_cons_nopat d (w2 ++ x) args hp,
      ih x args (fun ch hch => h ch (List.mem_cons_of_mem d hch))]
    rfl

/-- Replacing the first pattern occurrence in the tail cannot create a new
occurrence at the head when the replacement text is nonempty and brace-free. -/
theorem aux_patPrefix_replaceOnce_false (c d : Char) (cs ad : List Char)
    (hne : ad ≠ []) (hfree : ∀ ch ∈ ad, ¬ ch = lb ∧ ¬ ch = rb)
    (hp : patPrefixB (c :: d :: cs) = false) :
    patPrefixB (c :: replaceOnceCh (d :: cs) ad) = false := by
  by_cases hc : c = lb
  · have hd : ¬ d = rb := by
      intro hd
      rw [hc, hd] at hp
      simp [patPrefixB] at hp
    simp only [replaceOnceCh]
    by_cases hpd : patPrefixB (d :: cs) = true
    · rw [if_pos hpd]
      cases had : ad with
      | nil => exact absurd had hne
      | cons a0 ad2 =>
        have ha0 : ¬ a0 = rb := by
          refine (hfree a0 ?_).2
          rw [had]
          exact List.mem_cons_self a0 ad2
        simp [patPrefixB, ha0]
    · rw [if_neg hpd]
      simp [patPrefixB, hd]
  · cases hro : replaceOnceCh (d :: cs) ad with
    | nil => rfl
    | cons x t => simp [patPrefixB, hc]

/-- One `replacen` step absorbed into the single-pass substitution: replacing
the first occurrence with a nonempty brace-free argument and then
single-passing the rest equals single-passing with the argument in front. -/
theorem aux_subst_replaceOnce (s : List Char) (a : String)
    (rest : List String) (hne : a.data ≠ [])
    (hfree : ∀ ch ∈ a.data, ¬ ch = lb ∧ ¬ ch = rb) :
    substTemplateCh (replaceOnceCh s a.data) rest =
      substTemplateCh s (a :: rest) := by
  induction s with
  | nil => rfl
  | cons c s2 ih =>
    by_cases hp : patPrefixB (c :: s2) = true
    · cases s2 with
      | nil => simp [patPrefixB] at hp
      | cons d cs =>
        have hcd : c = lb ∧ d = rb := by
          constructor <;>
            [skip; skip] <;>
            · simp only [patPrefixB, Bool.and_eq_true, decide_eq_true_eq] at hp
              · first
                | exact hp.1
                | exact hp.2
        obtain ⟨hc1, hd1⟩ := hcd
        subst hc1
        subst hd1
        have hro : replaceOnceCh (lb :: rb :: cs) a.data = a.data ++ cs := by
          simp [replaceOnceCh, patPrefixB]
        rw [hro,
          aux_subst_append_lbfree a.data cs rest
            (fun ch hch => (hfree ch hch).1)]
        have hrhs : substTemplateCh (lb :: rb :: cs) (a :: rest) =
            a.data ++ substTemplateCh cs rest := by
          simp [substTemplateCh]
        rw [hrhs]
    · have hpf : patPrefixB (c :: s2) = false := by
        simpa using hp
      have hro : replaceOnceCh (c :: s2) a.data =
          c :: replaceOnceCh s2 a.data := by
        simp [replaceOnceCh, hpf]
      rw [hro]
      cases s2 with
      | nil =>
        show substTemplateCh [c] rest = substTemplateCh [c] (a :: rest)
        cases rest <;> rfl
      | cons d cs =>
        have hp2 : patPrefixB (c :: replaceOnceCh (d :: cs) a.data) = false :=
          aux_patPrefix_replaceOnce_false c d cs a.data hne hfree hpf
        rw [aux_subst_cons_nopat c (replaceOnceCh (d :: cs) a.data) rest hp2,
          ih, aux_subst_cons_nopat c (d :: cs) (a :: rest) hpf]

/-- The sequential fold of `replacen` steps agrees with the single-pass
substitution when every argument is nonempty and brace-free. -/
theorem aux_foldl_eq_single_pass (args : List String) :
    ∀ (t : String),
      (∀ a ∈ args, a.data ≠ [] ∧ ∀ ch ∈ a.data, ¬ ch = lb ∧ ¬ ch = rb) →
      args.foldl replacenBrace t = formatSinglePass t args := by
  induction args with
  | nil =>
    intro t _
    show t = formatSinglePass t []
    rw [formatSinglePass, aux_subst_nil_args]
  | cons a rest ih =>
    intro t h
    rw [List.foldl_cons,
      ih (replacenBrace t a) (fun b hb => h b (List.mem_cons_of_mem a hb))]
    obtain ⟨hne, hfree⟩ := h a (List.mem_cons_self a rest)
    simp only [formatSinglePass, replacenBrace]
    rw [aux_subst_replaceOnce t.data a rest hne hfree]

/-- C7 (amended): `format` substitutes the arguments *sequentially*, each one
replacing the first brace-pair occurrence of the current, already-substituted
template (`replacen(..., 1)` in a loop); when every stringified argument is
nonempty and contains no brace character, this coincides with the spec's
single-pass substitution of the original template. -/
theorem c7_format_sequential_substitution :
    ∀ (t : String) (args : List String),
      (∀ a ∈ args, a.data ≠ [] ∧ ∀ ch ∈ a.data, ¬ ch = lb ∧ ¬ ch = rb) →
      hamFormatStrings (t :: args) = some (formatSinglePass t args) := by
  intro t args h
  show some (args.foldl replacenBrace t) = some (formatSinglePass t args)
  rw [aux_foldl_eq_single_pass args t h]

/-- Witness for C7: `format("a\x7b\x7db", "Z")` under the amended theorem. -/
theorem c7_format_sequential_substitution_witness :
    hamFormatStrings ["a\x7b\x7db", "Z"] =
      some (formatSinglePass "a\x7b\x7db" ["Z"]) ∧
    formatSinglePass "a\x7b\x7db" ["Z"] = "aZb" :=
  ⟨c7_format_sequential_substitution "a\x7b\x7db" ["Z"] (by decide),
   by decide⟩

/-- C7 counterexample: `format("\x7b\x7d", "\x7b\x7d", "X")`.  The first
argument's own text is a brace pair; the code's sequential `replacen` lets the
second argument substitute into it, producing `"X"`, while the claim's
single-pass semantics (one original-template occurrence per argument, argument
text never rescanned) produces `"\x7b\x7d"`. -/
theorem c7_format_not_single_pass :
    hamFormatStrings ["\x7b\x7d", "\x7b\x7d", "X"] = some "X" ∧
    formatSinglePass "\x7b\x7d" ["\x7b\x7d", "X"] = "\x7b\x7d" ∧
    decide (("X" : String) = "\x7b\x7d") = false :=
  ⟨rfl, rfl, by decide⟩

/-- Every token generated from the line list starting at index `i` comes from
some line `j` of the list and carries line number `i + j + 1`. -/
theorem aux_tokensFrom_mem (lines : List (List String)) :
    ∀ (i : Nat) (t : Token), t ∈ transformIntoTokensFrom i lines →
      ∃ j line, lines.get? j = some line ∧ t.value ∈ line ∧
        t.line = i + j + 1 := by
  induction lines with
  | nil =>
    intro i t ht
    simp [transformIntoTokensFrom] at ht
  | cons line rest ih =>
    intro i t ht
    rw [transformIntoTokensFrom, List.mem_append] at ht
    cases ht with
    | inl hl =>
      obtain ⟨w, hw, hmk⟩ := List.mem_map.mp hl
      refine ⟨0, line, rfl, ?_, ?_⟩
      · rw [← hmk]
        exact hw
      · rw [← hmk]
    | inr hr =>
      obtain ⟨j, line2, hj, hv, hline⟩ := ih (i + 1) t hr
      refine ⟨j + 1, line2, ?_, hv, ?_⟩
      · simpa using hj
      · rw [hline]
        omega

/-- C9 (amended): a token's `line` field is the 1-based index of its line
among the lines that *survive the comment filter*.  When no line of the
program starts with `//`, that index is the physical one: every token's
`line` points back at the physical source line containing its text.  (With a
comment line above, the index shifts — see the counterexample.) -/
theorem c9_token_lines_physical_without_comments :
    ∀ (code : String),
      (∀ l ∈ splitLinesCh code.data, startsWithSlashSlash l = false) →
      ∀ t ∈ getTokens code,
        ∃ l, (splitLinesCh code.data).get? (t.line - 1) = some l ∧
          t.value ∈ lineWords l := by
  intro code hnc t ht
  have hfilter : (splitLinesCh code.data).filter
      (fun l => ¬ startsWithSlashSlash l) = splitLinesCh code.data := by
    rw [List.filter_eq_self]
    intro l hl
    simp [hnc l hl]
  rw [getTokens, getLines, hfilter, transformIntoTokens] at ht
  obtain ⟨j, line2, hj, hv, hl⟩ := aux_tokensFrom_mem _ 0 t ht
  rw [List.get?_map] at hj
  cases hmem : (splitLinesCh code.data).get? j with
  | none =>
    rw [hmem] at hj
    cases hj
  | some lraw =>
    rw [hmem] at hj
    cases hj
    refine ⟨lraw, ?_, hv⟩
    rw [hl]
    simpa using hmem

/-- Witness for C9: the comment-free program `let x`; its first token `let`
carries line 1 and indeed lives on physical line 1. -/
theorem c9_token_lines_witness :
    Token.mk Ops.VarDef "let" 1 ∈ getTokens "let x" ∧
    (splitLinesCh "let x".data).get? 0 = some ['l', 'e', 't', ' ', 'x'] ∧
    "let" ∈ lineWords ['l', 'e', 't', ' ', 'x'] := by
  obtain ⟨l, h1, h2⟩ :=
    c9_token_lines_physical_without_comments "let x" (by decide)
      (Token.mk Ops.VarDef "let" 1) (by decide)
  have h1c : (splitLinesCh "let x".data).get? 0 =
      some ['l', 'e', 't', ' ', 'x'] := rfl
  have hl : l = ['l', 'e', 't', ' ', 'x'] := by
    have h3 : some ['l', 'e', 't', ' ', 'x'] = some l := h1c.symm.trans h1
    cases h3
    rfl
  subst hl
  exact ⟨by decide, h1c, h2⟩

/-- C9 counterexample: in `//c\nlet`, the word `let` sits on physical line 2,
but the lexer skips the comment line before numbering, so its token carries
line 1 — the 1-based *physical* line of a token below a `//` line is not what
the token records. -/
theorem c9_comment_line_shifts_numbering :
    getTokens "//c\nlet" = [Token.mk Ops.VarDef "let" 1] ∧
    splitLinesCh "//c\nlet".data = [['/', '/', 'c'], ['l', 'e', 't']] ∧
    startsWithSlashSlash ['/', '/', 'c'] = true ∧
    lineWords ['l', 'e', 't'] = ["let"] :=
  ⟨rfl, rfl, rfl, rfl⟩

/-- The variable `findLastByName` returns really bears the searched name. -/
theorem aux_findLast_some_name (l : List VariableDef) (nm : String) :
    ∀ v, findLastByName l nm = some v → v.name = nm := by
  induction l with
  | nil =>
    intro v h
    cases h
  | cons w ws ih =>
    intro v h
    rw [findLastByName] at h
    cases htail : findLastByName ws nm with
    | some u =>
      rw [htail] at h
      cases h
      exact ih v htail
    | none =>
      rw [htail] at h
      by_cases hw : w.name = nm
      · rw [if_pos hw] at h
        cases h
        exact hw
      · rw [if_neg hw] at h
        cases h

/-- When `findLastByName` misses, no entry bears the name. -/
theorem aux_findLast_none (l : List VariableDef) (nm : String) :
    findLastByName l nm = none → ∀ v ∈ l, ¬ v.name = nm := by
  induction l with
  | nil =>
    intro _ v hv
    cases hv
  | cons w ws ih =>
    intro h v hv
    rw [findLastByName] at h
    cases htail : findLastByName ws nm with
    | some u =>
      rw [htail] at h
      cases h
    | none =>
      rw [htail] at h
      by_cases hw : w.name = nm
      · rw [if_pos hw] at h
        cases h
      · rw [if_neg hw] at h
        cases List.mem_cons.mp hv with
        | inl heq =>
          rw [heq]
          exact hw
        | inr hmem => exact ih htail v hmem

/-- `updateLastByName` rewrites exactly the entry `findLastByName` finds (the
newest one with the name: no later entry matches), leaving every other entry
in place. -/
theorem aux_updateLast_spec (l : List VariableDef) (nm : String)
    (f : VariableDef → VariableDef) :
    ∀ var, findLastByName l nm = some var →
      ∃ k, l.get? k = some var ∧
        (∀ j u, k < j → l.get? j = some u → ¬ u.name = nm) ∧
        updateLastByName l nm f = l.set k (f var) := by
  induction l with
  | nil =>
    intro var h
    cases h
  | cons v vs ih =>
    intro var h
    rw [findLastByName] at h
    cases htail : findLastByName vs nm with
    | some w =>
      rw [htail] at h
      cases h
      obtain ⟨k, hk, hafter, hupd⟩ := ih var htail
      refine ⟨k + 1, by simpa using hk, ?_, ?_⟩
      · intro j u hj hget
        cases j with
        | zero => omega
        | succ j2 =>
          have : k < j2 := by omega
          exact hafter j2 u this (by simpa using hget)
      · rw [updateLastByName, htail, hupd]
        rfl
    | none =>
      rw [htail] at h
      by_cases hw : v.name = nm
      · rw [if_pos hw] at h
        cases h
        refine ⟨0, rfl, ?_, ?_⟩
        · intro j u hj hget
          cases j with
          | zero => omega
          | succ j2 =>
            exact aux_findLast_none vs nm htail u
              (List.get?_mem (by simpa using hget))
        · rw [updateLastByName, htail, if_pos hw]
          rfl
      · rw [if_neg hw] at h
        cases h

/-- C10: on a variable whose stored type is not `Pointer`, `modify_var`
rewrites only the `value` field of the newest stack entry with that name —
`val_type` (and `name`, `expr_id`, `functions`, `var_id`) keep their old
contents, every other entry is untouched, and no diagnostic is raised.  In
particular assigning a value of a different runtime type leaves the stale
type tag behind. -/
theorem c10_modify_var_updates_value_only :
    ∀ (s : Stack) (nm : String) (w : BoxedValue) (var : VariableDef),
      s.get_variable_by_name nm = some var →
      ¬ var.val_type = Ops.Pointer →
      var.name = nm ∧
      ∃ k, s.vars.get? k = some var ∧
        (∀ j u, k < j → s.vars.get? j = some u → ¬ u.name = nm) ∧
        s.modify_var nm w =
          some ({ s with vars := s.vars.set k { var with value := w.value } },
            []) := by
  intro s nm w var hname hty
  have hfl : findLastByName s.vars nm = some var := hname
  refine ⟨aux_findLast_some_name s.vars nm var hfl, ?_⟩
  obtain ⟨k, hk, hafter, hupd⟩ :=
    aux_updateLast_spec s.vars nm (fun o => { o with value := w.value }) var hfl
  refine ⟨k, hk, hafter, ?_⟩
  rw [Stack.modify_var, hname]
  dsimp only
  rw [if_neg hty, hupd]

/-- Witness for C10: writing the `String` value `"z"` into the `Number`
variable `a = 3`: the entry keeps `val_type = Number` (now describing a
`String` payload), all other fields survive, and the concrete result stack is
computed. -/
theorem c10_modify_var_witness :
    c8Stack.get_variable_by_name "a" = some c8NumVar ∧
    ¬ c8NumVar.val_type = Ops.Pointer ∧
    (c8NumVar.name = "a" ∧
      ∃ k, c8Stack.vars.get? k = some c8NumVar ∧
        (∀ j u, k < j → c8Stack.vars.get? j = some u → ¬ u.name = "a") ∧
        c8Stack.modify_var "a" (BoxedValue.mk Ops.String (PrimVal.str "z")) =
          some ({ c8Stack with
            vars := c8Stack.vars.set k ⟨"a", Ops.Number, PrimVal.str "z", "g", [], 1⟩ }, [])) ∧
    c8Stack.modify_var "a" (BoxedValue.mk Ops.String (PrimVal.str "z")) =
      some (⟨[], [⟨"a", Ops.Number, PrimVal.str "z", "g", [], 1⟩], 1⟩, []) :=
  ⟨rfl, by decide,
   c10_modify_var_updates_value_only c8Stack "a"
     (BoxedValue.mk Ops.String (PrimVal.str "z")) c8NumVar rfl (by decide),
   rfl⟩

end Ham
